import Mathlib

/-!
Verification of the Perundhu OCR microservice (src/ocr-service/main.py).

The service's own logic is pure data transformation:
  * `correct_tamil_text` — an ordered substring-replacement table
    (`TAMIL_CORRECTIONS`) applied to each recognized string;
  * `parse_ocr_result` — flattening the recognition engine's per-page output
    into lines, per-line detail records and a mean confidence;
  * the two endpoint handlers, which wrap the above in a try/except that
    converts any exception into a `success = false` response body.

Python strings are modelled as `List Char` (sequences of Unicode code
points); the engine's floating-point confidence scores are modelled as
exact rationals `ℚ`; the fallible prefix of each endpoint (file read /
URL fetch / image decode / engine call) is modelled as an `Except` value.
-/

set_option maxRecDepth 100000

/-- Models the character class of Python's `str.strip` (Unicode whitespace):
ASCII whitespace plus the Unicode space code points. -/
def py_isspace (c : Char) : Bool :=
  c == ' ' || c == '\t' || c == '\n' || c == '\r' || c == '\x0b' || c == '\x0c' ||
  c.val == 0x1c || c.val == 0x1d || c.val == 0x1e || c.val == 0x1f ||
  c.val == 0x85 || c.val == 0xa0 || c.val == 0x1680 ||
  (0x2000 ≤ c.val && c.val ≤ 0x200a) ||
  c.val == 0x2028 || c.val == 0x2029 || c.val == 0x202f || c.val == 0x205f ||
  c.val == 0x3000

/-- Truthiness of `s.strip()` in Python: the string stripped of leading and
trailing whitespace is non-empty iff some character is not whitespace. -/
def stripTruthy (s : List Char) : Bool :=
  s.any (fun c => !(py_isspace c))

/-- Python's substring test `pat in s`. -/
def containsSub : List Char → List Char → Bool
  | [], pat => pat.isEmpty
  | c :: rest, pat => pat.isPrefixOf (c :: rest) || containsSub rest pat

/-- Fuel-driven worker for `replaceAll`; the fuel is only a structural
termination device and never runs out when it starts at the string length
(each step consumes at least one character of the string). -/
def replaceAllFuel (pat rep : List Char) : Nat → List Char → List Char
  | 0, s => s
  | _ + 1, [] => []
  | fuel + 1, c :: rest =>
    if !pat.isEmpty && pat.isPrefixOf (c :: rest) then
      rep ++ replaceAllFuel pat rep fuel (List.drop pat.length (c :: rest))
    else
      c :: replaceAllFuel pat rep fuel rest

/-- Python's `s.replace(pat, rep)` for a non-empty pattern: replace all
occurrences, scanning left to right, non-overlapping.  (Python's special
behaviour for an empty pattern is not modelled; every pattern in
`TAMIL_CORRECTIONS` is non-empty.) -/
def replaceAll (s pat rep : List Char) : List Char :=
  replaceAllFuel pat rep s.length s

/-- The `TAMIL_CORRECTIONS` dictionary of main.py, in its declaration order
(Python dict iteration order is insertion order; the source has no duplicate
keys, so this list is exactly the iteration order). -/
def TAMIL_CORRECTIONS : List (List Char × List Char) := [
  ("தம்ழ்நாடு".data, "தமிழ்நாடு".data),
  ("தம்ழ்".data, "தமிழ்".data),
  ("கருச்சி".data, "திருச்சி".data),
  ("தஇிறுச்சி".data, "திருச்சி".data),
  ("தஇருச்சி".data, "திருச்சி".data),
  ("திருச்ச".data, "திருச்சி".data),
  ("பெங்களுூரு".data, "பெங்களூரு".data),
  ("பெங்களூ®ரு".data, "பெங்களூரு".data),
  ("மஙுரை".data, "மதுரை".data),
  ("மாதுரை".data, "மதுரை".data),
  ("Lமரை".data, "மதுரை".data),
  ("Lமகரை".data, "மதுரை".data),
  ("சலம்".data, "சேலம்".data),
  ("ும்பகொணம்".data, "கும்பகோணம்".data),
  ("கும்பகொணம்".data, "கும்பகோணம்".data),
  ("ஃம்பகொணம்".data, "கும்பகோணம்".data),
  ("காயம்புத்கூார்".data, "கோயம்புத்தூர்".data),
  ("காயம்புத்கூர்".data, "கோயம்புத்தூர்".data),
  ("கிகசசெந்கார்".data, "திருச்செந்தூர்".data),
  ("கிறுச்செந்கூர்".data, "திருச்செந்தூர்".data),
  ("திருநெல்வெலி".data, "திருநெல்வேலி".data),
  ("கன்னியாகுமரி".data, "கன்னியாகுமரி".data),
  ("Bறபரம".data, "தாராபுரம்".data),
  ("Bாறாபுரம்".data, "தாராபுரம்".data),
  ("ாறாபுரம்".data, "தாராபுரம்".data),
  ("கககுக்குiட".data, "தூத்துக்குடி".data),
  ("BBகக19".data, "தூத்துக்குடி".data),
  ("ஒent".data, "ஒசூர்".data),
  ("இராமேஸ்வேம்".data, "இராமேஸ்வரம்".data),
  ("பேதுந்து".data, "பேருந்து".data),
  ("பேதற்துகள்".data, "பேருந்துகள்".data),
  ("பேதுந்துகள்".data, "பேருந்துகள்".data),
  ("நலையைம்".data, "நிலையம்".data),
  ("தெொலைதூமர்".data, "தொலைதூரம்".data),
  ("போக்குவரத்துக்".data, "போக்குவரத்துக்".data),
  ("கழகம்".data, "கழகம்".data),
  ("அரசப்".data, "அரசு".data),
  ("@tristcl".data, "".data),
  ("@tnstcl".data, "".data),
  ("@tr".data, "".data),
  ("@tnetohlaoin".data, "".data),
  ("@bstcbloelim".data, "".data),
  ("tcblog.in".data, "".data),
  ("stcblog".data, "".data),
  ("tnstcbl".data, "".data),
  ("bg-in".data, "".data),
  ("log.in".data, "".data),
  ("astcbloLin".data, "".data),
  ("ccblog.in".data, "".data),
  ("gOhgah".data, "".data),
  ("Lin".data, "".data),
  ("LDCU".data, "".data),
  ("LC".data, "".data),
  ("கa்".data, "கரூர்".data),
  ("கCt".data, "கரூர்".data),
  ("Lர".data, "மதுரை".data)]

/-- One iteration of the loop body of `correct_tamil_text`:
`if wrong in corrected: corrected = corrected.replace(wrong, correct)`. -/
def apply_correction (corrected : List Char) (rule : List Char × List Char) : List Char :=
  if containsSub corrected rule.1 then replaceAll corrected rule.1 rule.2 else corrected

/-- `correct_tamil_text` of main.py: the guarded left-to-right pass over the
correction table, returning an empty input unchanged. -/
def correct_tamil_text (text : List Char) : List Char :=
  if text = [] then text
  else TAMIL_CORRECTIONS.foldl apply_correction text

/-- The correction pass as the specification words it (section 4.1): every
rule's substring replacement applied unconditionally, in table order, each
rule acting globally on the text produced by the earlier rules. -/
def correct_tamil_text_spec (text : List Char) : List Char :=
  TAMIL_CORRECTIONS.foldl (fun acc rule => replaceAll acc rule.1 rule.2) text

/-- Floor of a rational: `⌊num/den⌋` via flooring integer division. -/
def ratFloor (q : ℚ) : ℤ :=
  q.num.fdiv q.den

/-- Round a rational to the nearest integer, ties to even, the rounding mode
of Python's builtin `round` (idealized over exact rationals; the source
applies it to binary floating-point values). -/
def roundHalfEven (q : ℚ) : ℤ :=
  let f : ℤ := ratFloor q
  let frac : ℚ := q - (f : ℚ)
  if frac < 1 / 2 then f
  else if 1 / 2 < frac then f + 1
  else if f % 2 = 0 then f else f + 1

/-- Python's `round(x, 4)`: round to four decimal digits. -/
def round4 (q : ℚ) : ℚ :=
  (roundHalfEven (q * 10000) : ℚ) / 10000

/-- Python's `int(x)` on a number: truncation toward zero (`Int` division in
Lean truncates toward zero). -/
def truncInt (q : ℚ) : ℤ :=
  q.num / (q.den : ℤ)

/-- One page of engine output, as read by `parse_ocr_result` via
`page_result.get('rec_texts', [])` and friends: recognized strings, their
confidence scores, and their bounding polygons (each polygon a list of
points, each point a list of coordinates). -/
structure PageResult where
  rec_texts : List (List Char)
  rec_scores : List ℚ
  rec_polys : List (List (List ℚ))
deriving DecidableEq

/-- The per-line detail record built by `parse_ocr_result` (the dict
appended to `details`). -/
structure Detail where
  text : List Char
  original_text : Option (List Char)
  confidence : ℚ
  bbox : List (List ℤ)
deriving DecidableEq

/-- The quadruple returned by `parse_ocr_result`, with the source's local
variable names as field names. -/
structure ParsedResult where
  extracted_text : List Char
  lines : List (List Char)
  avg_confidence : ℚ
  details : List Detail
deriving DecidableEq

/-- Python's `"\n".join(lines)`: the lines with a single newline between
consecutive lines and nothing after the last. -/
def joinLines : List (List Char) → List Char
  | [] => []
  | [l] => l
  | l :: ls => l ++ '\n' :: joinLines ls

/-- The region loop of `parse_ocr_result` (`for i, text in
enumerate(rec_texts)`), de-looped into structural recursion over the
enumerated text list: the list accumulations append in loop order and the
confidence total adds each retained region's confidence exactly once. -/
def parse_regions (rec_scores : List ℚ) (rec_polys : List (List (List ℚ))) :
    List (ℕ × List Char) → List (List Char) × List Detail × ℚ × ℕ
  | [] => ([], [], 0, 0)
  | (i, text) :: rest =>
    let confidence : ℚ := rec_scores.getD i 0
    let bbox : List (List ℚ) := rec_polys.getD i []
    let corrected_text : List Char := correct_tamil_text text
    let r := parse_regions rec_scores rec_polys rest
    if stripTruthy corrected_text then
      (corrected_text :: r.1,
       { text := corrected_text,
         original_text := if text = corrected_text then none else some text,
         confidence := round4 confidence,
         bbox := if bbox = [] then []
                 else bbox.map (fun point => point.map truncInt) } :: r.2.1,
       confidence + r.2.2.1,
       r.2.2.2 + 1)
    else
      r

/-- `parse_ocr_result` of main.py: consult only the first page (an empty
result yields empty accumulators), run the region loop, then compute the
mean confidence (`total / count` when `count > 0`, else `0`) and the joined
text. -/
def parse_ocr_result (result : List PageResult) : ParsedResult :=
  let acc :=
    match result with
    | [] => ([], [], 0, 0)
    | page_result :: _ =>
      parse_regions page_result.rec_scores page_result.rec_polys page_result.rec_texts.enum
  { extracted_text := joinLines acc.1,
    lines := acc.1,
    avg_confidence := if 0 < acc.2.2.2 then acc.2.2.1 / (acc.2.2.2 : ℚ) else 0,
    details := acc.2.1 }

/-- The texts of the page `parse_ocr_result` consults (the first page;
none when the engine result is empty). -/
def pageTexts : List PageResult → List (List Char)
  | [] => []
  | p :: _ => p.rec_texts

/-- The confidence scores of the consulted page. -/
def pageScores : List PageResult → List ℚ
  | [] => []
  | p :: _ => p.rec_scores

/-- The bounding polygons of the consulted page. -/
def pagePolys : List PageResult → List (List (List ℚ))
  | [] => []
  | p :: _ => p.rec_polys

/-- The retained regions of an engine result: the enumerated texts of the
consulted page whose corrected text is non-empty after stripping
whitespace. -/
def retainedIdx (result : List PageResult) : List (ℕ × List Char) :=
  (pageTexts result).enum.filter (fun it => stripTruthy (correct_tamil_text it.2))

/-- The confidences of the retained regions (score at the region's index,
defaulting to 0 when the score list is shorter). -/
def retainedConfs (result : List PageResult) : List ℚ :=
  (retainedIdx result).map (fun it => (pageScores result).getD it.1 0)

/-- The detail record `parse_ocr_result` builds for the retained region at
index `it.1` with raw text `it.2`. -/
def detailFor (rec_scores : List ℚ) (rec_polys : List (List (List ℚ)))
    (it : ℕ × List Char) : Detail :=
  { text := correct_tamil_text it.2,
    original_text := if it.2 = correct_tamil_text it.2 then none else some it.2,
    confidence := round4 (rec_scores.getD it.1 0),
    bbox := if rec_polys.getD it.1 [] = [] then []
            else (rec_polys.getD it.1 []).map (fun point => point.map truncInt) }

/-- The response model `OCRResult` of main.py. -/
structure OCRResult where
  success : Bool
  extracted_text : List Char
  lines : List (List Char)
  confidence : ℚ
  details : List Detail
  error : Option (List Char)
deriving DecidableEq

/-- The `/extract` endpoint handler, with the fallible prefix (file read,
image decode, engine call) abstracted as an `Except` value: on success the
parsed result is wrapped with `success = true`; any exception is caught and
converted into the fixed failure body.  Because every exception is caught,
the handler always returns a response value, which the framework serves
with HTTP status 200. -/
def extract_text (outcome : Except (List Char) (List PageResult)) : OCRResult :=
  match outcome with
  | Except.ok result =>
    let p := parse_ocr_result result
    { success := true,
      extracted_text := p.extracted_text,
      lines := p.lines,
      confidence := round4 p.avg_confidence,
      details := p.details,
      error := none }
  | Except.error e =>
    { success := false,
      extracted_text := [],
      lines := [],
      confidence := 0,
      details := [],
      error := some e }

/-- The `/extract-url` endpoint handler, with the fallible prefix (URL
fetch, status check, image decode, engine call) abstracted as an `Except`
value; its result construction is identical to `extract_text`. -/
def extract_from_url (outcome : Except (List Char) (List PageResult)) : OCRResult :=
  match outcome with
  | Except.ok result =>
    let p := parse_ocr_result result
    { success := true,
      extracted_text := p.extracted_text,
      lines := p.lines,
      confidence := round4 p.avg_confidence,
      details := p.details,
      error := none }
  | Except.error e =>
    { success := false,
      extracted_text := [],
      lines := [],
      confidence := 0,
      details := [],
      error := some e }

/-- `replaceAll` on the empty string is the empty string. -/
theorem replaceAll_nil (pat rep : List Char) : replaceAll [] pat rep = [] := rfl

/-- A replacement whose pattern does not occur leaves the string unchanged,
at any fuel. -/
theorem replaceAllFuel_no_match (pat rep : List Char) (fuel : Nat) :
    ∀ s : List Char, containsSub s pat = false → replaceAllFuel pat rep fuel s = s := by
  induction fuel with
  | zero => intro s _; rfl
  | succ n ih =>
    intro s h
    cases s with
    | nil => rfl
    | cons c rest =>
      simp only [containsSub, Bool.or_eq_false_iff] at h
      simp [replaceAllFuel, h.1, ih rest h.2]

/-- A replacement whose pattern does not occur leaves the string unchanged. -/
theorem replaceAll_no_match (s pat rep : List Char) (h : containsSub s pat = false) :
    replaceAll s pat rep = s :=
  replaceAllFuel_no_match pat rep s.length s h

/-- The guard `if wrong in corrected` in `correct_tamil_text` is redundant:
the loop body always agrees with the bare replacement. -/
theorem apply_correction_eq_replaceAll (t : List Char) (rule : List Char × List Char) :
    apply_correction t rule = replaceAll t rule.1 rule.2 := by
  unfold apply_correction
  by_cases h : containsSub t rule.1
  · simp [h]
  · simp only [Bool.not_eq_true] at h
    simp [h, replaceAll_no_match t rule.1 rule.2 h]

/-- The guarded correction fold agrees with the unconditional replacement
fold, over any rule list and any starting string. -/
theorem foldl_apply_correction_eq (rules : List (List Char × List Char)) :
    ∀ t : List Char,
      rules.foldl apply_correction t =
        rules.foldl (fun acc rule => replaceAll acc rule.1 rule.2) t := by
  induction rules with
  | nil => intro t; rfl
  | cons r rs ih =>
    intro t
    simp only [List.foldl_cons, apply_correction_eq_replaceAll, ih]

/-- The unconditional replacement fold maps the empty string to the empty
string (every replacement of the empty string is empty). -/
theorem foldl_replaceAll_nil (rules : List (List Char × List Char)) :
    rules.foldl (fun acc rule => replaceAll acc rule.1 rule.2) [] = [] := by
  induction rules with
  | nil => rfl
  | cons r rs ih => simpa [List.foldl_cons, replaceAll_nil] using ih

/-- A string in which no rule's pattern occurs passes through the guarded
fold unchanged. -/
theorem foldl_apply_correction_no_match (rules : List (List Char × List Char)) :
    ∀ t : List Char, (∀ rule ∈ rules, containsSub t rule.1 = false) →
      rules.foldl apply_correction t = t := by
  induction rules with
  | nil => intro t _; rfl
  | cons r rs ih =>
    intro t h
    have hr : apply_correction t r = t := by
      unfold apply_correction
      simp [h r (List.mem_cons_self r rs)]
    simp only [List.foldl_cons, hr]
    exact ih t (fun rule hm => h rule (List.mem_cons_of_mem r hm))

/-- A string in which no rule's pattern occurs is a fixed point of
`correct_tamil_text`. -/
theorem correct_tamil_text_fix (t : List Char)
    (h : ∀ rule ∈ TAMIL_CORRECTIONS, containsSub t rule.1 = false) :
    correct_tamil_text t = t := by
  unfold correct_tamil_text
  by_cases ht : t = []
  · simp [ht]
  · simp [ht, foldl_apply_correction_no_match TAMIL_CORRECTIONS t h]

/-- Characterization of the region loop: filtering the enumerated texts by
non-blank corrected text, the loop returns that filtered list's corrected
texts, its detail records, the sum of its confidences, and its length. -/
theorem parse_regions_eq (rec_scores : List ℚ) (rec_polys : List (List (List ℚ))) :
    ∀ l : List (ℕ × List Char),
      parse_regions rec_scores rec_polys l =
        ((l.filter fun it => stripTruthy (correct_tamil_text it.2)).map
            (fun it => correct_tamil_text it.2),
         (l.filter fun it => stripTruthy (correct_tamil_text it.2)).map
            (detailFor rec_scores rec_polys),
         ((l.filter fun it => stripTruthy (correct_tamil_text it.2)).map
            (fun it => rec_scores.getD it.1 0)).sum,
         (l.filter fun it => stripTruthy (correct_tamil_text it.2)).length) := by
  intro l
  induction l with
  | nil => rfl
  | cons hd tl ih =>
    obtain ⟨i, text⟩ := hd
    by_cases h : stripTruthy (correct_tamil_text text)
    · simp [parse_regions, h, ih, List.filter_cons, detailFor]
    · simp [parse_regions, h, ih, List.filter_cons]

/-- The retained corrected texts of the enumerated list are exactly the
corrected texts filtered by non-blankness, in order. -/
theorem enumFrom_retained_map (n : ℕ) (texts : List (List Char)) :
    ((List.enumFrom n texts).filter
        (fun it => stripTruthy (correct_tamil_text it.2))).map
      (fun it => correct_tamil_text it.2) =
    (texts.map correct_tamil_text).filter stripTruthy := by
  induction texts generalizing n with
  | nil => rfl
  | cons t ts ih =>
    by_cases h : stripTruthy (correct_tamil_text t)
    · simp [List.enumFrom, List.filter_cons, h, ih]
    · simp [List.enumFrom, List.filter_cons, h, ih]

/-- `joinLines` is `List.intercalate` with a newline separator. -/
theorem joinLines_eq_intercalate :
    ∀ ls : List (List Char), joinLines ls = List.intercalate ['\n'] ls := by
  intro ls
  induction ls with
  | nil => rfl
  | cons l rest ih =>
    cases rest with
    | nil => simp [joinLines, List.intercalate]
    | cons l2 rest2 =>
      simp only [joinLines, ih]
      simp [List.intercalate, List.intersperse]

/-- Length of the joined text: the lines' total length plus one separator
between each pair of consecutive lines, none after the last. -/
theorem joinLines_length :
    ∀ ls : List (List Char),
      (joinLines ls).length = (ls.map List.length).sum + (ls.length - 1) := by
  intro ls
  induction ls with
  | nil => rfl
  | cons l rest ih =>
    cases rest with
    | nil => simp [joinLines]
    | cons l2 rest2 =>
      simp only [joinLines, List.length_append, List.length_cons, ih,
        List.map_cons, List.sum_cons, List.length_cons] at *
      omega

/-- `round(0.0, 4) = 0`. -/
theorem round4_zero : round4 0 = 0 := by
  norm_num [round4, roundHalfEven, ratFloor, Int.fdiv]

/-- `parse_ocr_result` in closed form, through the retained-region list. -/
theorem parse_ocr_result_eq (result : List PageResult) :
    parse_ocr_result result =
      { extracted_text :=
          joinLines ((retainedIdx result).map fun it => correct_tamil_text it.2),
        lines := (retainedIdx result).map fun it => correct_tamil_text it.2,
        avg_confidence :=
          if 0 < (retainedIdx result).length
          then (retainedConfs result).sum / ((retainedIdx result).length : ℚ)
          else 0,
        details := (retainedIdx result).map
          (detailFor (pageScores result) (pagePolys result)) } := by
  cases result with
  | nil => rfl
  | cons p rest =>
    simp [parse_ocr_result, parse_regions_eq, retainedIdx, retainedConfs,
      pageTexts, pageScores, pagePolys, List.enum]

/-- C3: for every input string, `correct_tamil_text` equals the left fold
over `TAMIL_CORRECTIONS` in its fixed declaration order of global
substring replacement (`correct_tamil_text_spec`): every rule is applied in
table order regardless of whether earlier rules matched, each later rule
acts on the text produced by earlier rules within the same call, and an
empty input is returned unchanged (the `text = []` instance of this
equality, both sides being empty). -/
theorem correct_tamil_text_eq_spec (text : List Char) :
    correct_tamil_text text = correct_tamil_text_spec text := by
  unfold correct_tamil_text correct_tamil_text_spec
  by_cases ht : text = []
  · simp [ht, foldl_replaceAll_nil]
  · simp [ht, foldl_apply_correction_eq]

/-- C2, counterexample: `correct_tamil_text` is not idempotent.  On the
input "திருச்ச" one pass yields "திருச்சி" (rule `திருச்ச → திருச்சி`),
and a second pass re-matches that rule inside its own output, yielding
"திருச்சிி". -/
theorem correct_tamil_text_not_idempotent :
    correct_tamil_text (correct_tamil_text "திருச்ச".data) ≠
      correct_tamil_text "திருச்ச".data := by
  decide

/-- C2, amended: re-applying `correct_tamil_text` produces the same string
for every input whose corrected output contains no pattern of the table;
in general the function is not idempotent, because a rule's replacement can
contain a pattern of the table (its own or a later one). -/
theorem correct_tamil_text_idempotent_of_no_match (s : List Char)
    (h : ∀ rule ∈ TAMIL_CORRECTIONS,
      containsSub (correct_tamil_text s) rule.1 = false) :
    correct_tamil_text (correct_tamil_text s) = correct_tamil_text s :=
  correct_tamil_text_fix (correct_tamil_text s) h

/-- Witness for the amended C2, at the input "abc": no pattern occurs in
its corrected output, and re-applying the correction changes nothing. -/
theorem correct_tamil_text_idempotent_of_no_match_witness :
    (∀ rule ∈ TAMIL_CORRECTIONS,
      containsSub (correct_tamil_text "abc".data) rule.1 = false) ∧
    correct_tamil_text (correct_tamil_text "abc".data) =
      correct_tamil_text "abc".data :=
  ⟨by decide, correct_tamil_text_idempotent_of_no_match "abc".data (by decide)⟩

/-- C1, counterexample: a region whose text is a single space has a
non-empty corrected text (no correction applies to it), yet
`parse_ocr_result` drops it — the code retains a line only when the
corrected text is non-empty after stripping whitespace, not merely
non-empty. -/
theorem parse_retention_counterexample :
    correct_tamil_text [' '] ≠ [] ∧
    (parse_ocr_result [⟨[[' ']], [1], []⟩]).lines = [] := by
  exact ⟨by decide, by decide⟩

/-- C1, amended: a detected region's line is retained in the final result
iff its corrected text is non-empty after stripping whitespace (contains a
non-whitespace character), in engine order; and the mean confidence is
computed only over the retained lines (sum of retained confidences over
the retained count, 0 when none is retained). -/
theorem parse_retention_amended (result : List PageResult) :
    (parse_ocr_result result).lines =
      ((pageTexts result).map correct_tamil_text).filter stripTruthy ∧
    (parse_ocr_result result).avg_confidence =
      (if 0 < (retainedIdx result).length
       then (retainedConfs result).sum / ((retainedIdx result).length : ℚ)
       else 0) := by
  constructor
  · rw [parse_ocr_result_eq]
    simpa [retainedIdx, List.enum] using enumFrom_retained_map 0 (pageTexts result)
  · rw [parse_ocr_result_eq]

/-- C4: the mean confidence returned by `parse_ocr_result` is the sum of
the retained regions' confidences divided by the number of retained
regions, and exactly 0 (no division) when no region is retained. -/
theorem avg_confidence_eq (result : List PageResult) :
    ((retainedIdx result).length = 0 →
      (parse_ocr_result result).avg_confidence = 0) ∧
    (0 < (retainedIdx result).length →
      (parse_ocr_result result).avg_confidence =
        (retainedConfs result).sum / ((retainedIdx result).length : ℚ)) := by
  rw [parse_ocr_result_eq]
  constructor
  · intro h
    simp [h]
  · intro h
    simp only [if_pos h]

/-- Witness for C4, at a one-region engine output: the region is retained
and the mean equals its (sum of) confidence divided by one. -/
theorem avg_confidence_eq_witness :
    0 < (retainedIdx [⟨["ab".data], [1 / 2], []⟩]).length ∧
    (parse_ocr_result [⟨["ab".data], [1 / 2], []⟩]).avg_confidence =
      (retainedConfs [⟨["ab".data], [1 / 2], []⟩]).sum /
        ((retainedIdx [⟨["ab".data], [1 / 2], []⟩]).length : ℚ) :=
  ⟨by decide, (avg_confidence_eq [⟨["ab".data], [1 / 2], []⟩]).2 (by decide)⟩

/-- C5: the extracted text equals the retained lines joined by a single
newline separator; the length equation certifies that exactly one
separator sits between consecutive lines and none after the last (no
trailing newline is appended by the join). -/
theorem extracted_text_eq_join (result : List PageResult) :
    (parse_ocr_result result).extracted_text =
      List.intercalate ['\n'] (parse_ocr_result result).lines ∧
    (parse_ocr_result result).extracted_text.length =
      ((parse_ocr_result result).lines.map List.length).sum +
        ((parse_ocr_result result).lines.length - 1) := by
  rw [parse_ocr_result_eq]
  exact ⟨joinLines_eq_intercalate _, joinLines_length _⟩

/-- C6: the details are the retained regions' records in order, and a
record's `original_text` is `none` exactly when the corrected text equals
the raw engine text, holding the raw engine text otherwise. -/
theorem original_text_iff (result : List PageResult) :
    (parse_ocr_result result).details =
      (retainedIdx result).map
        (detailFor (pageScores result) (pagePolys result)) ∧
    ∀ it ∈ retainedIdx result,
      ((detailFor (pageScores result) (pagePolys result) it).original_text = none ↔
        correct_tamil_text it.2 = it.2) ∧
      (correct_tamil_text it.2 ≠ it.2 →
        (detailFor (pageScores result) (pagePolys result) it).original_text =
          some it.2) := by
  constructor
  · rw [parse_ocr_result_eq]
  · intro it _
    constructor
    · simp only [detailFor]
      by_cases h : it.2 = correct_tamil_text it.2
      · rw [if_pos h]
        exact iff_of_true rfl h.symm
      · rw [if_neg h]
        refine iff_of_false ?_ (fun hc => h hc.symm)
        simp
    · intro hne
      simp only [detailFor]
      rw [if_neg (fun hh => hne hh.symm)]

/-- Witness for C6, at the one-region output whose text the table corrects:
the region is retained, its corrected text differs from the raw text, and
the record's `original_text` holds the raw text. -/
theorem original_text_iff_witness :
    (0, "தம்ழ்நாடு".data) ∈ retainedIdx [⟨["தம்ழ்நாடு".data], [1], []⟩] ∧
    (detailFor (pageScores [⟨["தம்ழ்நாடு".data], [1], []⟩])
        (pagePolys [⟨["தம்ழ்நாடு".data], [1], []⟩])
        (0, "தம்ழ்நாடு".data)).original_text = some "தம்ழ்நாடு".data :=
  ⟨by decide,
   ((original_text_iff [⟨["தம்ழ்நாடு".data], [1], []⟩]).2
      (0, "தம்ழ்நாடு".data) (by decide)).2 (by decide)⟩

/-- C7: when the fallible prefix of either endpoint (ingestion, fetch, or
the recognition call) raises, the handler catches the exception and
returns — hence the framework serves HTTP 200 — a body with
`success = false`, a non-null error string, empty extracted text, lines
and details, and confidence 0: no partial results. -/
theorem endpoint_failure_shape (e : List Char) :
    extract_text (Except.error e) =
      { success := false, extracted_text := [], lines := [], confidence := 0,
        details := [], error := some e } ∧
    (extract_text (Except.error e)).error ≠ none ∧
    extract_from_url (Except.error e) =
      { success := false, extracted_text := [], lines := [], confidence := 0,
        details := [], error := some e } ∧
    (extract_from_url (Except.error e)).error ≠ none := by
  refine ⟨rfl, by simp [extract_text], rfl, by simp [extract_from_url]⟩

/-- C8: when the engine returns exactly one region with text "தம்ழ்நாடு"
and confidence 0.92, `parse_ocr_result` retains the line with corrected
text "தமிழ்நாடு", the detail record carries the raw text as
`original_text`, and the mean confidence is 0.92. -/
theorem scenario_tamilnadu :
    (parse_ocr_result [⟨["தம்ழ்நாடு".data], [92 / 100], []⟩]).lines =
      ["தமிழ்நாடு".data] ∧
    (parse_ocr_result [⟨["தம்ழ்நாடு".data], [92 / 100], []⟩]).details.map
        Detail.text = ["தமிழ்நாடு".data] ∧
    (parse_ocr_result [⟨["தம்ழ்நாடு".data], [92 / 100], []⟩]).details.map
        Detail.original_text = [some "தம்ழ்நாடு".data] ∧
    (parse_ocr_result [⟨["தம்ழ்நாடு".data], [92 / 100], []⟩]).avg_confidence =
      92 / 100 := by
  refine ⟨by decide, by decide, by decide, ?_⟩
  have hidx : retainedIdx [⟨["தம்ழ்நாடு".data], [92 / 100], []⟩] =
      [(0, "தம்ழ்நாடு".data)] := by decide
  have hconf : retainedConfs [⟨["தம்ழ்நாடு".data], [92 / 100], []⟩] =
      [92 / 100] := by
    simp [retainedConfs, hidx, pageScores]
  rw [parse_ocr_result_eq]
  simp [hidx, hconf]

/-- C9: when `rec_scores` or `rec_polys` is shorter than `rec_texts`, the
loop still produces a record for every retained region (the details are
the full retained list — no index error can occur in the model, which is
total by construction), with the confidence defaulting to 0 and the
bounding box to the empty list for every region whose index is past the
end of the respective list. -/
theorem index_default_safety (result : List PageResult) :
    (parse_ocr_result result).details =
      (retainedIdx result).map
        (detailFor (pageScores result) (pagePolys result)) ∧
    ∀ it ∈ retainedIdx result,
      ((pageScores result).length ≤ it.1 →
        (detailFor (pageScores result) (pagePolys result) it).confidence = 0) ∧
      ((pagePolys result).length ≤ it.1 →
        (detailFor (pageScores result) (pagePolys result) it).bbox = []) := by
  refine ⟨by rw [parse_ocr_result_eq], ?_⟩
  intro it _
  constructor
  · intro h
    simp only [detailFor]
    rw [List.getD_eq_default _ _ h, round4_zero]
  · intro h
    simp only [detailFor]
    rw [List.getD_eq_default _ _ h]
    simp

/-- Witness for C9, at a one-region output with empty score and polygon
lists: the region is retained and its record defaults to confidence 0 and
an empty bounding box. -/
theorem index_default_safety_witness :
    (0, "ab".data) ∈ retainedIdx [⟨["ab".data], [], []⟩] ∧
    (detailFor (pageScores [⟨["ab".data], [], []⟩])
        (pagePolys [⟨["ab".data], [], []⟩]) (0, "ab".data)).confidence = 0 ∧
    (detailFor (pageScores [⟨["ab".data], [], []⟩])
        (pagePolys [⟨["ab".data], [], []⟩]) (0, "ab".data)).bbox = [] :=
  ⟨by decide,
   ((index_default_safety [⟨["ab".data], [], []⟩]).2
      (0, "ab".data) (by decide)).1 (by decide),
   ((index_default_safety [⟨["ab".data], [], []⟩]).2
      (0, "ab".data) (by decide)).2 (by decide)⟩

/-- C10: the lines and details of `parse_ocr_result` have the same length,
and the i-th detail record's text equals the i-th line, in the same
engine-declared order. -/
theorem lines_details_aligned (result : List PageResult) :
    (parse_ocr_result result).lines.length =
      (parse_ocr_result result).details.length ∧
    ∀ (i : ℕ) (h : i < (parse_ocr_result result).details.length)
      (h2 : i < (parse_ocr_result result).lines.length),
      ((parse_ocr_result result).details.get ⟨i, h⟩).text =
        (parse_ocr_result result).lines.get ⟨i, h2⟩ := by
  rw [parse_ocr_result_eq]
  constructor
  · simp
  · intro i h h2
    simp only [List.get_eq_getElem, List.getElem_map]
    rfl

/-- Witness for C10, at a one-region engine output, for index 0. -/
theorem lines_details_aligned_witness :
    (parse_ocr_result [⟨["ab".data], [1], []⟩]).lines.length =
      (parse_ocr_result [⟨["ab".data], [1], []⟩]).details.length ∧
    ((parse_ocr_result [⟨["ab".data], [1], []⟩]).details.get
        ⟨0, by decide⟩).text =
      (parse_ocr_result [⟨["ab".data], [1], []⟩]).lines.get ⟨0, by decide⟩ :=
  ⟨(lines_details_aligned [⟨["ab".data], [1], []⟩]).1,
   (lines_details_aligned [⟨["ab".data], [1], []⟩]).2 0 (by decide) (by decide)⟩
